import Mathlib

/-!
Verification development for the `tincan` byte-buffering toolkit.

We give a shallow embedding of the core data structures of the repository:

* `Tincan.UninitSlice` operations (`src/buf/uninit.rs`): a view over
  possibly-uninitialized bytes, modelled as `List (Option Nat)` where `none`
  is an uninitialized byte (`MaybeUninit<u8>`), and `some v` an initialized
  byte with value `v`.
* `Tincan.LinearBuf` (`src/buf/linear.rs`): the growable linear buffer with
  `input_idx`/`output_idx` cursors over a backing allocation of
  possibly-uninitialized bytes.
* `Tincan.Buffer` (`src/buffer.rs`): the eagerly-zeroing variant whose
  backing memory is always initialized, modelled as `List Nat`.
* `Tincan.IoSliceUnix` (`src/buf/iorepr.rs`): the POSIX vectored-I/O
  pointer/length descriptor.

Rust `panic!`/failed `assert!`/arithmetic-overflow aborts (and the one
undefined-behavior path reachable through a safe API, the slice-length
underflow in `UninitSlice::do_advance`) are modelled by `Option`, with
`none` as the abort outcome.  Allocation success is an explicit boolean
oracle argument `allocOk` threaded to every operation that may call the
allocator; `usize`/`isize` arithmetic is on `Nat`, with the source's
explicit `isize::MAX` clamps kept (`isizeMax`, for a 64-bit platform).
-/

namespace Tincan

/-- `isize::MAX` on a 64-bit platform, the maximum single-allocation size. -/
def isizeMax : Nat := 2 ^ 63 - 1

/-! ## `UninitSlice` (`src/buf/uninit.rs`)

The view is the list of bytes it covers; `advance` drops from the front.
A byte is `none` when uninitialized. -/

/-- `UninitSlice::advance` (uninit.rs:86-91): shortens the view from the
front by `min count len` and returns the excess `count - len`
(saturating subtraction in the source). -/
def usAdvance (view : List (Option Nat)) (count : Nat) :
    List (Option Nat) × Nat :=
  (view.drop (min view.length count), count - view.length)

/-- `UninitSlice::write_from` (uninit.rs:95-102).  `count` is
`min self.len() src.len()`; the source is truncated to `count` bytes and then
copied with `<[_]>::copy_from_slice`, which panics (`none`) unless the
destination view's length equals the (truncated) source's length.  On success
the view is advanced past the written prefix and that prefix is returned. -/
def writeFrom (view : List (Option Nat)) (src : List Nat) :
    Option (List Nat × List (Option Nat)) :=
  let count := min view.length src.length
  if view.length = count then
    some (src.take count, view.drop count)
  else
    none

/-- `UninitSlice::zeroed` (uninit.rs:125-128): zero-fills the first
`min len self.len()` bytes in place and exposes them; the view itself is not
advanced.  Returns the new view contents paired with the zeroed prefix. -/
def usZeroed (view : List (Option Nat)) (len : Nat) :
    List (Option Nat) × List Nat :=
  let len' := min len view.length
  (List.replicate len' (some 0) ++ view.drop len', List.replicate len' 0)

/-- `UninitSlice::write_with` (uninit.rs:108-116).  The closure `f` receives
the zeroed prefix (of length `min max len`, because `zeroed` clamps) as a
mutable slice and returns its final contents together with how many bytes it
claims to have written.  In-place mutation cannot change the slice's length,
so the returned contents are truncated or zero-padded back to that length.
`assert!(written <= max)` is the first `none`; `do_advance written` then
computes `self.0.len() - written` on `usize`, which underflows (debug abort /
unsound slice otherwise) when `written` exceeds the view's length — the
second `none`. -/
def writeWith (view : List (Option Nat)) (max : Nat)
    (f : List Nat → List Nat × Nat) : Option (Nat × List (Option Nat)) :=
  let zlen := min max view.length
  let r := f (List.replicate zlen 0)
  let content' := r.1.take zlen ++ List.replicate (zlen - r.1.length) 0
  let view' := content'.map some ++ view.drop zlen
  if r.2 ≤ max then
    if r.2 ≤ view'.length then
      some (r.2, view'.drop r.2)
    else
      none
  else
    none

/-! ## `LinearBuf` (`src/buf/linear.rs`) -/

/-- The linear buffer (linear.rs:11-19).  `bytes` is the backing allocation
(`capacity = bytes.length`); `[output_idx, input_idx)` is the readable
region, `[input_idx, capacity)` the writable one. -/
structure LinearBuf where
  bytes : List (Option Nat)
  input_idx : Nat
  output_idx : Nat
  deriving Repr, DecidableEq

namespace LinearBuf

/-- `LinearBuf::capacity`. -/
def capacity (b : LinearBuf) : Nat := b.bytes.length

/-- `LinearBuf::capacity_in`: writable bytes, `capacity - input_idx`. -/
def capacityIn (b : LinearBuf) : Nat := b.bytes.length - b.input_idx

/-- `LinearBuf::len`: readable bytes, `input_idx - output_idx`. -/
def len (b : LinearBuf) : Nat := b.input_idx - b.output_idx

/-- `LinearBuf::new`. -/
def new : LinearBuf := ⟨[], 0, 0⟩

/-- The readable region `[output_idx, input_idx)` as byte values
(`LinearBuf::output_slice`, linear.rs:162-168; asserted initialized there,
so the `getD 0` default never fires on states built by the API). -/
def outSlice (b : LinearBuf) : List Nat :=
  ((b.bytes.drop b.output_idx).take (b.input_idx - b.output_idx)).map
    (fun o => o.getD 0)

/-- `LinearBuf::realloc` (linear.rs:115-147).  The request is clamped to
`isize::MAX`; growing preserves contents and leaves the new tail
uninitialized, shrinking truncates; `allocOk` says whether the allocator
grants the request.  Returns the new state and the source's `bool`. -/
def realloc (allocOk : Bool) (lenReq : Nat) (b : LinearBuf) :
    LinearBuf × Bool :=
  let len' := min lenReq isizeMax
  if len' = b.bytes.length then
    (b, true)
  else if 0 < b.bytes.length then
    if 0 < len' then
      if allocOk then
        ({ b with bytes :=
            if len' ≤ b.bytes.length then b.bytes.take len'
            else b.bytes ++ List.replicate (len' - b.bytes.length) none },
          true)
      else (b, false)
    else
      ({ b with bytes := [] }, true)
  else
    -- capacity is 0 and len' > 0; Layout::array always succeeds post-clamp.
    if allocOk then ({ b with bytes := List.replicate len' none }, true)
    else (b, false)

/-- `LinearBuf::with_capacity` (linear.rs:67-71). -/
def withCapacity (allocOk : Bool) (n : Nat) : LinearBuf :=
  (realloc allocOk n new).1

/-- `LinearBuf::shift_to_start` (linear.rs:205-216): memmove the readable
region to offset 0 and reset `output_idx`; returns the resulting writable
capacity `capacity + output_idx - input_idx`. -/
def shiftToStart (b : LinearBuf) : LinearBuf × Nat :=
  if b.output_idx = 0 then
    (b, b.bytes.length - b.input_idx)
  else
    let l := b.input_idx - b.output_idx
    (⟨(b.bytes.drop b.output_idx).take l ++ b.bytes.drop l, l, 0⟩,
      b.bytes.length + b.output_idx - b.input_idx)

/-- `LinearBuf::reserve` (linear.rs:148-156): if fewer than `n` writable
bytes, first compact; if still short, realloc to
`min (capacity + input_idx + n) isize::MAX` (the post-compaction indices). -/
def reserve (allocOk : Bool) (n : Nat) (b : LinearBuf) : LinearBuf × Bool :=
  if b.bytes.length - b.input_idx < n then
    let s := shiftToStart b
    if s.2 < n then
      realloc allocOk (min (s.1.bytes.length + s.1.input_idx + n) isizeMax) s.1
    else (s.1, true)
  else (b, true)

/-- `LinearBuf::shrink_to_fit` (linear.rs:103-108): compact, then realloc to
`max min' input_idx` (post-compaction `input_idx` equals `len`). -/
def shrinkToFit (allocOk : Bool) (min' : Nat) (b : LinearBuf) : LinearBuf :=
  let b1 := (shiftToStart b).1
  (realloc allocOk (max min' b1.input_idx) b1).1

/-- `LinearBuf::consume` / `consume_unchecked` (linear.rs:178-193): assert
`count ≤ len` (abort = `none`), advance `output_idx`, and reset both cursors
to 0 when the buffer becomes empty. -/
def consume (count : Nat) (b : LinearBuf) : Option LinearBuf :=
  if count ≤ b.input_idx - b.output_idx then
    let b1 := { b with output_idx := b.output_idx + count }
    if b1.input_idx = b1.output_idx then
      some { b1 with output_idx := 0, input_idx := 0 }
    else some b1
  else none

/-- `LinearBuf::supply_unchecked` / `LinearBufWriter::supply`
(linear.rs:194-197, 417-422): unconditionally advances `input_idx`; the
bound `count ≤ capacity_in` is an unchecked unsafe-contract obligation. -/
def supplyUnchecked (count : Nat) (b : LinearBuf) : LinearBuf :=
  { b with input_idx := b.input_idx + count }

/-- `LinearBufReader::consume_all` (linear.rs:305-309). -/
def consumeAll (b : LinearBuf) : LinearBuf :=
  { b with input_idx := 0, output_idx := 0 }

/-- `impl std::io::Read for LinearBuf` (linear.rs:233-243): build an
`UninitSlice` over the caller's `bufLen`-byte destination, `write_from` the
readable region into it (which can panic, see `writeFrom`), then
`consume_unchecked` the written length.  Returns the bytes read. -/
def read (bufLen : Nat) (b : LinearBuf) : Option (List Nat × LinearBuf) :=
  match writeFrom (List.replicate bufLen none) (outSlice b) with
  | none => none
  | some (written, _) =>
    match consume written.length b with
    | none => none
    | some b' => some (written, b')

/-- `impl std::io::Write for LinearBuf` (linear.rs:256-263):
`input_slice_mut(src.len())` reserves and exposes the whole writable region
(its boolean result is discarded), `write_from` copies `src` into it (which
can panic, see `writeFrom`), then `supply_unchecked` the written length. -/
def write (allocOk : Bool) (src : List Nat) (b : LinearBuf) :
    Option (Nat × LinearBuf) :=
  let b1 := (reserve allocOk src.length b).1
  match writeFrom (b1.bytes.drop b1.input_idx) src with
  | none => none
  | some (written, rest) =>
    some (written.length,
      { bytes := b1.bytes.take b1.input_idx ++ written.map some ++ rest,
        input_idx := b1.input_idx + written.length,
        output_idx := b1.output_idx })

/-- `LinearBufReader::parse` (linear.rs:314-341): the closure receives
exactly the readable region (`&slice[output_idx..]` of the
`[0, input_idx)` slice; out-of-range indexing aborts when
`output_idx > input_idx`).  On `Ok`, `output_idx` advances by the reported
count, both cursors reset when the buffer becomes empty, and overrunning
`input_idx` is a `panic!` (`none`).  On `Err` the state is untouched. -/
def parse {α ε : Type} (b : LinearBuf)
    (f : List Nat → Except ε (α × Nat)) :
    Option (Except ε α × LinearBuf) :=
  if b.output_idx ≤ b.input_idx then
    match f (outSlice b) with
    | .error e => some (.error e, b)
    | .ok (v, c) =>
      let o' := b.output_idx + c
      if o' = b.input_idx then
        some (.ok v, { b with output_idx := 0, input_idx := 0 })
      else if b.input_idx < o' then
        none
      else
        some (.ok v, { b with output_idx := o' })
  else none

/-- `impl Clone for LinearBuf` (linear.rs:32-41): allocate
`capacity_min = capacity - output_idx` bytes, take the input slice for
`len` bytes and `copy_nonoverlapping` the readable region into it.  Note the
source never advances the clone's `input_idx`. -/
def clone (allocOk : Bool) (b : LinearBuf) : LinearBuf :=
  let l := b.input_idx - b.output_idx
  let c := withCapacity allocOk (b.bytes.length - b.output_idx)
  let c1 := (reserve allocOk l c).1
  { c1 with bytes :=
      c1.bytes.take c1.input_idx ++ (outSlice b).map some ++
        c1.bytes.drop (c1.input_idx + l) }

/-- The cursor-ordering invariant of `LinearBuf` (linear.rs:11-19 and the
module documentation): `output_idx ≤ input_idx ≤ capacity`, together with
the machine-level bound `capacity ≤ isize::MAX` that every Rust allocation
satisfies. -/
def Inv (b : LinearBuf) : Prop :=
  b.output_idx ≤ b.input_idx ∧ b.input_idx ≤ b.bytes.length ∧
    b.bytes.length ≤ isizeMax

instance (b : LinearBuf) : Decidable (Inv b) := by
  unfold Inv; infer_instance

end LinearBuf

/-! ## `Buffer` (`src/buffer.rs`)

The eagerly-zeroing variant: its backing memory is always initialized
(`alloc_zeroed`, and `realloc` explicitly zeroes the grown tail), so the
allocation is a `List Nat`. -/

/-- The buffer of `src/buffer.rs` (buffer.rs:24-32). -/
structure Buffer where
  bytes : List Nat
  input_idx : Nat
  output_idx : Nat
  deriving Repr, DecidableEq

namespace Buffer

/-- `Buffer::capacity_in`. -/
def capacityIn (b : Buffer) : Nat := b.bytes.length - b.input_idx

/-- `Buffer::len`. -/
def len (b : Buffer) : Nat := b.input_idx - b.output_idx

/-- `Buffer::new`. -/
def new : Buffer := ⟨[], 0, 0⟩

/-- `Buffer::output_slice` (buffer.rs:182-184). -/
def outSlice (b : Buffer) : List Nat :=
  (b.bytes.drop b.output_idx).take (b.input_idx - b.output_idx)

/-- `Buffer::realloc` (buffer.rs:127-167): same shape as
`LinearBuf::realloc`, except fresh memory is zeroed (`alloc_zeroed`, and the
explicit `write_bytes(.., 0, ..)` after a growing `realloc`). -/
def realloc (allocOk : Bool) (lenReq : Nat) (b : Buffer) : Buffer × Bool :=
  let len' := min lenReq isizeMax
  if len' = b.bytes.length then
    (b, true)
  else if 0 < b.bytes.length then
    if 0 < len' then
      if allocOk then
        ({ b with bytes :=
            if len' ≤ b.bytes.length then b.bytes.take len'
            else b.bytes ++ List.replicate (len' - b.bytes.length) 0 },
          true)
      else (b, false)
    else
      ({ b with bytes := [] }, true)
  else
    if allocOk then ({ b with bytes := List.replicate len' 0 }, true)
    else (b, false)

/-- `Buffer::with_capacity` (buffer.rs:79-83). -/
def withCapacity (allocOk : Bool) (n : Nat) : Buffer :=
  (realloc allocOk n new).1

/-- `Buffer::shift_to_start` (buffer.rs:212-223). -/
def shiftToStart (b : Buffer) : Buffer × Nat :=
  if b.output_idx = 0 then
    (b, b.bytes.length - b.input_idx)
  else
    let l := b.input_idx - b.output_idx
    (⟨(b.bytes.drop b.output_idx).take l ++ b.bytes.drop l, l, 0⟩,
      b.bytes.length + b.output_idx - b.input_idx)

/-- `Buffer::reserve` (buffer.rs:168-176). -/
def reserve (allocOk : Bool) (n : Nat) (b : Buffer) : Buffer × Bool :=
  if b.bytes.length - b.input_idx < n then
    let s := shiftToStart b
    if s.2 < n then
      realloc allocOk (min (s.1.bytes.length + s.1.input_idx + n) isizeMax) s.1
    else (s.1, true)
  else (b, true)

/-- `Buffer::consume` (buffer.rs:191-199): assert `count ≤ len`
(abort = `none`), advance `output_idx`, reset both cursors when empty. -/
def consume (count : Nat) (b : Buffer) : Option Buffer :=
  if count ≤ b.input_idx - b.output_idx then
    let b1 := { b with output_idx := b.output_idx + count }
    if b1.input_idx = b1.output_idx then
      some { b1 with output_idx := 0, input_idx := 0 }
    else some b1
  else none

/-- `Buffer::advance` (buffer.rs:200-204): assert `count ≤ capacity_in`
(abort = `none`), then advance `input_idx`. -/
def advance (count : Nat) (b : Buffer) : Option Buffer :=
  if count ≤ b.bytes.length - b.input_idx then
    some { b with input_idx := b.input_idx + count }
  else none

/-- `BufferReader::parse` (buffer.rs:317-330): the closure receives exactly
the readable region (`&slice[output_idx..]` over `[0, input_idx)`;
out-of-range indexing aborts when `output_idx > input_idx`); on `Ok` the
reported count goes through `Buffer::consume`, whose assert rejects an
overrun and which resets the cursors when the buffer empties. -/
def parse {α ε : Type} (b : Buffer) (f : List Nat → Except ε (α × Nat)) :
    Option (Except ε α × Buffer) :=
  if b.output_idx ≤ b.input_idx then
    match f (outSlice b) with
    | .error e => some (.error e, b)
    | .ok (v, c) =>
      match consume c b with
      | none => none
      | some b' => some (.ok v, b')
  else none

/-- `impl Clone for Buffer` (buffer.rs:45-53): allocate
`capacity_min = capacity - output_idx` bytes, take the input slice for
`len` bytes, then `<[_]>::copy_from_slice` — which panics (`none`) unless
the destination (the whole writable region of the fresh buffer) has exactly
the source's length.  The clone's `input_idx` is never advanced. -/
def clone (allocOk : Bool) (b : Buffer) : Option Buffer :=
  let src := outSlice b
  let c := withCapacity allocOk (b.bytes.length - b.output_idx)
  let c1 := (reserve allocOk src.length c).1
  if c1.bytes.length - c1.input_idx = src.length then
    some { c1 with bytes :=
      c1.bytes.take c1.input_idx ++ src ++
        c1.bytes.drop (c1.input_idx + src.length) }
  else none

/-- Cursor-ordering invariant for `Buffer` (buffer.rs:24-32). -/
def Inv (b : Buffer) : Prop :=
  b.output_idx ≤ b.input_idx ∧ b.input_idx ≤ b.bytes.length ∧
    b.bytes.length ≤ isizeMax

instance (b : Buffer) : Decidable (Inv b) := by
  unfold Inv; infer_instance

end Buffer

/-! ## `IoSliceUnix` / `IoRepr` (`src/buf/iorepr.rs`) -/

/-- The POSIX `iovec`-compatible descriptor (iorepr.rs:5-11): a base
address and a length.  Addresses are modelled as `Nat`. -/
structure IoSliceUnix where
  ptr : Nat
  len : Nat
  deriving Repr, DecidableEq

namespace IoSliceUnix

/-- `IoSliceUnix::advance` (iorepr.rs:26-34): advance the pointer by
`min len self.len` (after a `usize → isize` conversion that panics, `none`,
if the offset exceeds `isize::MAX`), saturate the length toward zero, and
return `NonZero::new(len.saturating_sub(self.len))` — `some` of the
shortfall exactly when the request exceeds the slice. -/
def advance (s : IoSliceUnix) (count : Nat) :
    Option (IoSliceUnix × Option Nat) :=
  let offset := min count s.len
  if offset ≤ isizeMax then
    some (⟨s.ptr + offset, s.len - count⟩,
      if count - s.len = 0 then none else some (count - s.len))
  else none

end IoSliceUnix

/-! ## Helper lemmas -/

/-- `writeFrom` succeeds exactly when the source covers the view, in which
case it returns the truncated source and the fully-advanced view. -/
theorem writeFrom_some_iff {view : List (Option Nat)} {src : List Nat}
    {p : List Nat × List (Option Nat)} :
    writeFrom view src = some p ↔
      view.length ≤ src.length ∧
        p = (src.take view.length, view.drop view.length) := by
  unfold writeFrom
  dsimp only
  rcases p with ⟨w, rest⟩
  constructor
  · intro h
    split at h
    · rename_i hg
      have hle : view.length ≤ src.length := by omega
      refine ⟨hle, ?_⟩
      simpa [min_eq_left hle] using h.symm
    · exact absurd h (by simp)
  · rintro ⟨hle, hp⟩
    simp [min_eq_left hle, hp]

namespace LinearBuf

/-- `shift_to_start` preserves capacity and the readable bytes, moves the
readable region to offset 0, and reports the resulting writable capacity. -/
theorem shiftToStart_spec (b : LinearBuf) (hb : b.Inv) :
    (shiftToStart b).1.bytes.length = b.bytes.length ∧
      (shiftToStart b).1.input_idx = b.len ∧
      (shiftToStart b).1.output_idx = 0 ∧
      (shiftToStart b).2 = b.bytes.length - b.len ∧
      (shiftToStart b).1.outSlice = b.outSlice := by
  obtain ⟨h1, h2, h3⟩ := hb
  unfold shiftToStart
  dsimp only
  split
  · rename_i h0
    refine ⟨rfl, ?_, by simpa using h0, ?_, rfl⟩
    · simp [len, h0]
    · simp [len, h0]
  · rename_i h0
    have hlenA : ((b.bytes.drop b.output_idx).take
        (b.input_idx - b.output_idx)).length = b.input_idx - b.output_idx := by
      simp; omega
    refine ⟨?_, rfl, rfl, by simp [len]; omega, ?_⟩
    · simp only [List.length_append, hlenA, List.length_drop]; omega
    · unfold outSlice
      dsimp only
      rw [List.drop_zero, Nat.sub_zero, List.take_append_eq_append_take,
        hlenA, Nat.sub_self, List.take_zero, List.append_nil,
        List.take_take, min_self]

/-- `realloc` preserves the cursor invariant when the (clamped) request is
at least `input_idx` — the source's stated safety precondition. -/
theorem realloc_inv (a : Bool) (l : Nat) (b : LinearBuf) (hb : b.Inv)
    (h : b.input_idx ≤ min l isizeMax) : ((realloc a l b).1).Inv := by
  obtain ⟨h1, h2, h3⟩ := hb
  have hclamp : min l isizeMax ≤ isizeMax := min_le_right _ _
  unfold realloc
  dsimp only
  split
  · exact ⟨h1, h2, h3⟩
  split
  · split
    · split
      · refine ⟨h1, ?_, ?_⟩ <;> dsimp only <;> split <;>
          simp only [List.length_take, List.length_append,
            List.length_replicate] <;> omega
      · exact ⟨h1, h2, h3⟩
    · refine ⟨h1, ?_, ?_⟩ <;> simp only [List.length_nil] <;> omega
  · split
    · refine ⟨h1, ?_, ?_⟩ <;> simp only [List.length_replicate] <;> omega
    · exact ⟨h1, h2, h3⟩

/-- When the clamped request strictly exceeds the current capacity,
`realloc` either appends fresh uninitialized bytes (allocation granted) or
reports failure with the state untouched. -/
theorem realloc_grow (a : Bool) (l : Nat) (b : LinearBuf)
    (hcap : b.bytes.length < min l isizeMax) :
    realloc a l b =
      if a then
        ({ b with bytes :=
            b.bytes ++ List.replicate (min l isizeMax - b.bytes.length) none },
          true)
      else (b, false) := by
  unfold realloc
  dsimp only
  have hne : ¬ min l isizeMax = b.bytes.length := by omega
  have hpos : 0 < min l isizeMax := by omega
  simp only [hne, if_false, hpos, if_true]
  split
  · rename_i hbpos
    have : ¬ min l isizeMax ≤ b.bytes.length := by omega
    simp [this]
  · rename_i hbz
    have hz : b.bytes.length = 0 := by omega
    have : b.bytes = [] := List.length_eq_zero.mp hz
    simp [this]

/-- `shift_to_start` preserves the cursor invariant. -/
theorem shiftToStart_inv (b : LinearBuf) (hb : b.Inv) :
    ((shiftToStart b).1).Inv := by
  obtain ⟨g1, g2, g3⟩ := hb
  obtain ⟨hL, hI, hO, _, _⟩ := shiftToStart_spec b ⟨g1, g2, g3⟩
  refine ⟨?_, ?_, ?_⟩
  · rw [hO]; omega
  · rw [hI, hL]; unfold len; omega
  · rw [hL]; exact g3

/-- `reserve` preserves the cursor invariant. -/
theorem reserve_inv (a : Bool) (n : Nat) (b : LinearBuf) (hb : b.Inv) :
    ((reserve a n b).1).Inv := by
  obtain ⟨g1, g2, g3⟩ := hb
  unfold reserve
  dsimp only
  split
  · have hs := shiftToStart_inv b ⟨g1, g2, g3⟩
    split
    · apply realloc_inv _ _ _ hs
      have i1 := hs.2.1
      have i2 := hs.2.2
      omega
    · exact hs
  · exact ⟨g1, g2, g3⟩

/-- `consume` preserves the cursor invariant. -/
theorem consume_inv (c : Nat) (b b' : LinearBuf) (hb : b.Inv)
    (h : consume c b = some b') : b'.Inv := by
  obtain ⟨h1, h2, h3⟩ := hb
  unfold consume at h
  dsimp only at h
  split at h
  · rename_i hc
    split at h <;> cases h
    · exact ⟨Nat.le_refl 0, Nat.zero_le _, h3⟩
    · refine ⟨?_, h2, h3⟩
      show b.output_idx + c ≤ b.input_idx
      omega
  · cases h

end LinearBuf

/-- `IoRepr<T>` (iorepr.rs:92-94) on a POSIX platform: a transparent wrapper
around `IoSliceUnix` (the phantom slice type has no runtime content). -/
structure IoRepr where
  inner : IoSliceUnix
  deriving Repr, DecidableEq

/-- `IoRepr::advance` (iorepr.rs:96-100): delegates to the inner
descriptor's `advance`. -/
def IoRepr.advance (s : IoRepr) (count : Nat) :
    Option (IoRepr × Option Nat) :=
  match s.inner.advance count with
  | none => none
  | some (i, r) => some (⟨i⟩, r)

end Tincan

namespace Tincan

/-! ## Claim theorems -/

/-- C1.  The claimed round-trip property — any chunking of writes and reads
through `LinearBuf`'s `std::io::Write::write` / `std::io::Read::read`
reproduces the source bytes — fails on the code: `write_from` calls
`copy_from_slice` on the full destination view against a source truncated
to `min` length, which panics whenever the source is shorter than the view.
Writing `[1]` and then `[2]` to a fresh buffer panics on the second write
(the reserved writable region is 2 bytes, the chunk 1); likewise reading
into a 2-byte destination after writing `[1]` panics.  The loud abort is at
odds with the code's own `io_test` round-trip tests and `write_from`'s
documentation, so the claim is right and the code wrong. -/
theorem write_read_chunking_panics :
    ((LinearBuf.write true [1] LinearBuf.new).bind
      fun p => LinearBuf.write true [2] p.2) = none ∧
    ((LinearBuf.write true [1] LinearBuf.new).bind
      fun p => LinearBuf.read 2 p.2) = none :=
  ⟨rfl, rfl⟩

/-- C3.  The claim says `write_from(src)` copies `min(L, src.len())` bytes
and completes normally for every combination of lengths.  The code instead
panics whenever `src.len() < L`: `copy_from_slice` (uninit.rs:99) requires
the destination (`self.0`, still of full length `L`) and the truncated
source (length `min(L, src.len())`) to have equal lengths.  Here `L = 2`
and `src = [7]`, where the claim (and the function's own documentation)
promise a successful 1-byte copy. -/
theorem writeFrom_short_src_panics :
    writeFrom [none, none] [7] = none ∧
    writeFrom [none, none] [7, 8] = some ([7, 8], []) :=
  ⟨rfl, rfl⟩

/-- C10.  Cloning does not preserve observable contents: `Clone for
LinearBuf` (linear.rs:32-41) copies the readable bytes into the fresh
allocation but never advances the clone's `input_idx`, so the clone's `len`
is 0, not `b.len()`.  Here `b` holds one readable byte (`len = 1`) and its
clone reports `len = 0`.  `Clone for Buffer` (buffer.rs:45-53) has the same
missing advance and additionally panics (`copy_from_slice` length mismatch)
whenever `capacity - output_idx ≠ len`, as on the 2-byte-capacity buffer
below.  Both contradict the evident intent of `Clone`. -/
theorem clone_loses_contents :
    LinearBuf.clone true ⟨[some 5], 1, 0⟩ = ⟨[some 5], 0, 0⟩ ∧
    LinearBuf.len ⟨[some 5], 1, 0⟩ = 1 ∧
    LinearBuf.len (LinearBuf.clone true ⟨[some 5], 1, 0⟩) = 0 ∧
    Buffer.clone true ⟨[5, 0], 1, 0⟩ = none :=
  ⟨rfl, rfl, rfl, rfl⟩

/-- C2, counterexample.  The claim says that when the allocation fails,
writable capacity is unchanged from before the `reserve(n)` call.  On the
buffer `⟨[some 1, some 2], 2, 1⟩` (capacity 2, one consumed byte, one
readable byte, `capacity_in = 0`), `reserve 2` with a failing allocator
first compacts — raising `capacity_in` to 1 — and only then fails, so the
writable capacity after the failed call is 1, not the pre-call 0. -/
theorem reserve_failure_changes_capacityIn :
    (LinearBuf.reserve false 2 ⟨[some 1, some 2], 2, 1⟩).2 = false ∧
    LinearBuf.capacityIn ⟨[some 1, some 2], 2, 1⟩ = 0 ∧
    LinearBuf.capacityIn
      (LinearBuf.reserve false 2 ⟨[some 1, some 2], 2, 1⟩).1 = 1 :=
  ⟨rfl, rfl, rfl⟩

/-- C4, counterexample.  The claim says `write_with(max, f)` hands `f` a
zeroed prefix of length exactly `max` and, whenever `f`'s reported count is
≤ `max`, advances by that count within the view's bounds.  On an empty view
with `max = 1`, `zeroed` clamps: `f` receives a 0-byte slice, and if `f`
reports 1 written byte (≤ `max`, so the `assert!` passes), `do_advance(1)`
underflows the 0-length view — an abort/unsound advance, not the claimed
in-bounds advance by 1. -/
theorem writeWith_max_exceeding_view_panics :
    writeWith [] 1 (fun _ => ([], 1)) = none :=
  rfl

/-- C5, counterexample.  The claim says `consume(count)` with
`count ≤ len` advances `output_idx` by exactly `count`.  Consuming the full
readable length additionally resets both cursors to 0: on
`⟨[some 7], 1, 0⟩` (`len = 1`), `consume 1` succeeds but leaves
`output_idx = 0`, not `0 + 1`. -/
theorem consume_full_resets_cursors :
    LinearBuf.consume 1 ⟨[some 7], 1, 0⟩ = some ⟨[some 7], 0, 0⟩ ∧
    (⟨[some 7], 0, 0⟩ : LinearBuf).output_idx ≠ 0 + 1 :=
  ⟨rfl, by decide⟩

/-- C6, counterexample.  The claim says `LinearBufWriter::supply` aborts
when `count` exceeds the writable capacity.  It performs no check at all:
on a fresh buffer (`capacity_in = 0`), `supply 1` completes and advances
`input_idx` to 1 — the bound is an unchecked unsafe-contract obligation
(undefined behavior when violated), not an assertion. -/
theorem supply_overflow_not_aborted :
    LinearBuf.capacityIn LinearBuf.new = 0 ∧
    LinearBuf.supplyUnchecked 1 LinearBuf.new = ⟨[], 1, 0⟩ :=
  ⟨rfl, rfl⟩

/-- C5 (amended).  `consume(count)` — both `LinearBuf::consume` and
`Buffer::consume` — asserts `count ≤ len` and aborts otherwise, never
clamping; when `count ≤ len` it advances `output_idx` by exactly `count`
and then resets both cursors to 0 if the buffer became empty. -/
theorem consume_spec (bL : LinearBuf) (bB : Buffer) (c : Nat) :
    (bL.len < c → LinearBuf.consume c bL = none) ∧
    (c ≤ bL.len → LinearBuf.consume c bL =
      some (if bL.output_idx + c = bL.input_idx
        then { bL with output_idx := 0, input_idx := 0 }
        else { bL with output_idx := bL.output_idx + c })) ∧
    (bB.len < c → Buffer.consume c bB = none) ∧
    (c ≤ bB.len → Buffer.consume c bB =
      some (if bB.output_idx + c = bB.input_idx
        then { bB with output_idx := 0, input_idx := 0 }
        else { bB with output_idx := bB.output_idx + c })) := by
  refine ⟨?_, ?_, ?_, ?_⟩
  · intro h
    unfold LinearBuf.len at h
    unfold LinearBuf.consume
    dsimp only
    rw [if_neg (by omega)]
  · intro h
    unfold LinearBuf.len at h
    unfold LinearBuf.consume
    dsimp only
    rw [if_pos (by omega)]
    by_cases he : bL.input_idx = bL.output_idx + c
    · rw [if_pos he, if_pos he.symm]
    · rw [if_neg he, if_neg (fun hh => he hh.symm)]
  · intro h
    unfold Buffer.len at h
    unfold Buffer.consume
    dsimp only
    rw [if_neg (by omega)]
  · intro h
    unfold Buffer.len at h
    unfold Buffer.consume
    dsimp only
    rw [if_pos (by omega)]
    by_cases he : bB.input_idx = bB.output_idx + c
    · rw [if_pos he, if_pos he.symm]
    · rw [if_neg he, if_neg (fun hh => he hh.symm)]

/-- Witness for `consume_spec`: consuming 1 of 2 readable bytes advances
`output_idx` to 1; consuming 3 aborts. -/
theorem consume_spec_witness :
    LinearBuf.consume 1 ⟨[some 9, some 8], 2, 0⟩ =
      some ⟨[some 9, some 8], 2, 1⟩ ∧
    LinearBuf.consume 3 ⟨[some 9, some 8], 2, 0⟩ = none ∧
    Buffer.consume 1 ⟨[9, 8], 2, 0⟩ = some ⟨[9, 8], 2, 1⟩ := by
  have h := consume_spec ⟨[some 9, some 8], 2, 0⟩ ⟨[9, 8], 2, 0⟩ 1
  have h3 := (consume_spec ⟨[some 9, some 8], 2, 0⟩ ⟨[9, 8], 2, 0⟩ 3).1
  exact ⟨h.2.1 (by decide), h3 (by decide), h.2.2.2 (by decide)⟩

/-- C6 (amended).  `Buffer::advance` asserts `count ≤ capacity_in` and
aborts on violation; `LinearBufWriter::supply` performs no check — it
unconditionally advances `input_idx`, a count beyond the writable capacity
being a caller safety-contract violation (undefined behavior), not a
detected abort. -/
theorem advance_supply_spec (bB : Buffer) (bL : LinearBuf) (c : Nat) :
    (bB.capacityIn < c → Buffer.advance c bB = none) ∧
    (c ≤ bB.capacityIn → Buffer.advance c bB =
      some { bB with input_idx := bB.input_idx + c }) ∧
    LinearBuf.supplyUnchecked c bL =
      { bL with input_idx := bL.input_idx + c } := by
  refine ⟨?_, ?_, rfl⟩
  · intro h
    unfold Buffer.capacityIn at h
    unfold Buffer.advance
    rw [if_neg (by omega)]
  · intro h
    unfold Buffer.capacityIn at h
    unfold Buffer.advance
    rw [if_pos (by omega)]

/-- Witness for `advance_supply_spec` at a 2-byte buffer. -/
theorem advance_supply_spec_witness :
    Buffer.advance 3 ⟨[0, 0], 0, 0⟩ = none ∧
    Buffer.advance 2 ⟨[0, 0], 0, 0⟩ = some ⟨[0, 0], 2, 0⟩ := by
  have h := advance_supply_spec ⟨[0, 0], 0, 0⟩ LinearBuf.new 3
  have h2 := advance_supply_spec ⟨[0, 0], 0, 0⟩ LinearBuf.new 2
  exact ⟨h.1 (by decide), h2.2.1 (by decide)⟩

/-- C8.  `IoSliceUnix::advance(n)` (and `IoRepr::advance`, which delegates
to it) shrinks from the front saturating at empty — the new length is
`L - min n L`, the pointer advances by `min n L` — and returns the
shortfall `n - L` as `some` exactly when `n` exceeds `L`, `none`
otherwise.  The hypothesis `L ≤ isize::MAX` holds for every real slice;
it is what makes the internal `usize → isize` conversion succeed. -/
theorem ioSliceAdvance_spec (s : IoSliceUnix) (n : Nat)
    (h : s.len ≤ isizeMax) :
    s.advance n = some (⟨s.ptr + min n s.len, s.len - min n s.len⟩,
      if s.len < n then some (n - s.len) else none) ∧
    IoRepr.advance ⟨s⟩ n =
      some (⟨⟨s.ptr + min n s.len, s.len - min n s.len⟩⟩,
        if s.len < n then some (n - s.len) else none) := by
  have hbase : s.advance n = some (⟨s.ptr + min n s.len,
      s.len - min n s.len⟩, if s.len < n then some (n - s.len) else none) := by
    unfold IoSliceUnix.advance
    dsimp only
    rw [if_pos (by omega)]
    have hlen : s.len - n = s.len - min n s.len := by omega
    rw [hlen]
    by_cases hc : s.len < n
    · rw [if_pos hc, if_neg (by omega)]
    · rw [if_neg hc, if_pos (by omega)]
  refine ⟨hbase, ?_⟩
  unfold IoRepr.advance
  rw [hbase]

/-- Witness for `ioSliceAdvance_spec`: advancing a 3-byte slice at address
100 by 5 empties it, moves the pointer to 103, and reports a shortfall
of 2. -/
theorem ioSliceAdvance_spec_witness :
    IoSliceUnix.advance ⟨100, 3⟩ 5 = some (⟨103, 0⟩, some 2) := by
  have h := (ioSliceAdvance_spec ⟨100, 3⟩ 5 (by decide)).1
  simpa using h

/-- C4 (amended).  `write_with(max, f)` zero-fills the first
`min max len` bytes of the view (not `max`: `zeroed` clamps) and invokes
`f` with exactly that zeroed prefix; it asserts that `f`'s reported count
does not exceed `max`, and provided the count also does not exceed the
zeroed prefix's length — which any closure honestly reporting what it wrote
into its argument satisfies — it advances the view by exactly the reported
count, staying within the view's bounds. -/
theorem writeWith_spec (view : List (Option Nat)) (max : Nat)
    (f : List Nat → List Nat × Nat) :
    (max < (f (List.replicate (min max view.length) 0)).2 →
      writeWith view max f = none) ∧
    ((f (List.replicate (min max view.length) 0)).2 ≤ min max view.length →
      ∃ rest, writeWith view max f =
        some ((f (List.replicate (min max view.length) 0)).2, rest) ∧
        rest.length =
          view.length - (f (List.replicate (min max view.length) 0)).2) := by
  constructor
  · intro h
    unfold writeWith
    dsimp only
    rw [if_neg (by omega)]
  · intro h
    unfold writeWith
    dsimp only
    rw [if_pos (by omega)]
    rw [if_pos ?hin]
    case hin =>
      simp only [List.length_append, List.length_map, List.length_take,
        List.length_replicate, List.length_drop]
      omega
    refine ⟨_, rfl, ?_⟩
    simp only [List.length_drop, List.length_append, List.length_map,
      List.length_take, List.length_replicate]
    omega

/-- Witness for `writeWith_spec`: a 1-byte view with `max = 1` and a
closure reporting its full slice written advances past the byte. -/
theorem writeWith_spec_witness :
    ∃ rest, writeWith [none] 1 (fun l => (l, l.length)) = some (1, rest) ∧
      rest.length = 1 - 1 := by
  have h := (writeWith_spec [none] 1 (fun l => (l, l.length))).2 (by decide)
  simpa using h

/-- C7.  `LinearBufReader::parse` and `BufferReader::parse` pass the
closure exactly the full readable region `[output_idx, input_idx)`
(`outSlice`); on `Ok` with consumed count `c` they advance `output_idx` by
exactly `c`, resetting both cursors to 0 when the buffer becomes empty, and
abort (`none`) — never clamp — when the count would overrun `input_idx`;
on `Err` the buffer is untouched. -/
theorem parse_spec (α ε : Type) (bL : LinearBuf) (bB : Buffer)
    (f g : List Nat → Except ε (α × Nat))
    (hL : bL.output_idx ≤ bL.input_idx)
    (hB : bB.output_idx ≤ bB.input_idx) :
    (∀ e, f (LinearBuf.outSlice bL) = .error e →
      LinearBuf.parse bL f = some (.error e, bL)) ∧
    (∀ v c, f (LinearBuf.outSlice bL) = .ok (v, c) →
      (bL.input_idx < bL.output_idx + c → LinearBuf.parse bL f = none) ∧
      (bL.output_idx + c ≤ bL.input_idx → LinearBuf.parse bL f =
        some (.ok v, if bL.output_idx + c = bL.input_idx
          then { bL with output_idx := 0, input_idx := 0 }
          else { bL with output_idx := bL.output_idx + c }))) ∧
    (∀ e, g (Buffer.outSlice bB) = .error e →
      Buffer.parse bB g = some (.error e, bB)) ∧
    (∀ v c, g (Buffer.outSlice bB) = .ok (v, c) →
      (bB.input_idx < bB.output_idx + c → Buffer.parse bB g = none) ∧
      (bB.output_idx + c ≤ bB.input_idx → Buffer.parse bB g =
        some (.ok v, if bB.output_idx + c = bB.input_idx
          then { bB with output_idx := 0, input_idx := 0 }
          else { bB with output_idx := bB.output_idx + c }))) := by
  refine ⟨?_, ?_, ?_, ?_⟩
  · intro e he
    unfold LinearBuf.parse
    rw [if_pos hL, he]
  · intro v c hc
    constructor
    · intro hover
      unfold LinearBuf.parse
      rw [if_pos hL, hc]
      dsimp only
      rw [if_neg (by omega), if_pos (by omega)]
    · intro hle
      unfold LinearBuf.parse
      rw [if_pos hL, hc]
      dsimp only
      by_cases he : bL.output_idx + c = bL.input_idx
      · rw [if_pos he, if_pos he]
      · rw [if_neg he, if_neg (by omega), if_neg he]
  · intro e he
    unfold Buffer.parse
    rw [if_pos hB, he]
  · intro v c hc
    constructor
    · intro hover
      unfold Buffer.parse
      rw [if_pos hB, hc]
      dsimp only
      unfold Buffer.consume
      dsimp only
      rw [if_neg (by omega)]
    · intro hle
      unfold Buffer.parse
      rw [if_pos hB, hc]
      dsimp only
      unfold Buffer.consume
      dsimp only
      rw [if_pos (by omega)]
      by_cases he : bB.input_idx = bB.output_idx + c
      · rw [if_pos he, if_pos he.symm]
      · rw [if_neg he, if_neg (fun hh => he hh.symm)]

/-- Witness for `parse_spec`: a closure consuming 1 of 2 readable bytes
advances `output_idx` to 1 on both buffer variants. -/
theorem parse_spec_witness :
    LinearBuf.parse ⟨[some 1, some 2], 2, 0⟩
        (fun l => (Except.ok (l.length, 1) : Except Unit (Nat × Nat))) =
      some (.ok 2, ⟨[some 1, some 2], 2, 1⟩) ∧
    Buffer.parse ⟨[1, 2], 2, 0⟩
        (fun l => (Except.ok (l.length, 1) : Except Unit (Nat × Nat))) =
      some (.ok 2, ⟨[1, 2], 2, 1⟩) := by
  have h := parse_spec Nat Unit ⟨[some 1, some 2], 2, 0⟩ ⟨[1, 2], 2, 0⟩
    (fun l => .ok (l.length, 1)) (fun l => .ok (l.length, 1))
    (by decide) (by decide)
  constructor
  · have hl := (h.2.1 2 1 rfl).2 (by decide)
    simpa using hl
  · have hb := (h.2.2.2 2 1 rfl).2 (by decide)
    simpa using hb

/-- C2 (amended).  For a valid buffer whose required total capacity
`capacity + len + n` stays within `isize::MAX` (beyond it the source clamps
the allocation and the guarantee cannot hold): when `reserve(n)` reports
success the writable capacity is at least `n`; when the reallocation fails
the capacity and the readable bytes are unchanged, but the writable
capacity equals `capacity - len` — the post-compaction value, which differs
from the pre-call value whenever compaction reclaimed consumed space. -/
theorem reserve_capacity_spec (a : Bool) (n : Nat) (b : LinearBuf)
    (hb : b.Inv) (hRange : b.bytes.length + b.len + n ≤ isizeMax) :
    ((LinearBuf.reserve a n b).2 = true →
      n ≤ LinearBuf.capacityIn (LinearBuf.reserve a n b).1) ∧
    ((LinearBuf.reserve a n b).2 = false →
      (LinearBuf.reserve a n b).1.bytes.length = b.bytes.length ∧
      LinearBuf.capacityIn (LinearBuf.reserve a n b).1
        = b.bytes.length - b.len ∧
      (LinearBuf.reserve a n b).1.outSlice = LinearBuf.outSlice b) := by
  obtain ⟨h1, h2, h3⟩ := hb
  obtain ⟨hL, hI, hO, hR, hS⟩ := LinearBuf.shiftToStart_spec b ⟨h1, h2, h3⟩
  have hlen : b.len ≤ b.bytes.length := by unfold LinearBuf.len; omega
  unfold LinearBuf.reserve
  dsimp only
  split
  · rename_i hlt
    split
    · rename_i hlt2
      have harg : min ((LinearBuf.shiftToStart b).1.bytes.length +
          (LinearBuf.shiftToStart b).1.input_idx + n) isizeMax
          = b.bytes.length + b.len + n := by
        rw [hL, hI]; omega
      rw [harg, LinearBuf.realloc_grow a _ _ (by rw [hL]; omega)]
      split
      · constructor
        · intro _
          unfold LinearBuf.capacityIn
          dsimp only
          simp only [List.length_append, List.length_replicate]
          omega
        · intro hcontra; cases hcontra
      · constructor
        · intro hcontra; cases hcontra
        · intro _
          refine ⟨hL, ?_, hS⟩
          unfold LinearBuf.capacityIn
          dsimp only
          omega
    · rename_i hge
      constructor
      · intro _
        unfold LinearBuf.capacityIn
        dsimp only
        omega
      · intro hcontra; cases hcontra
  · rename_i hge
    constructor
    · intro _
      unfold LinearBuf.capacityIn
      dsimp only
      omega
    · intro hcontra; cases hcontra

/-- Witness for `reserve_capacity_spec`: reserving 2 bytes on a compacted
2-byte buffer holding one readable byte with a granting allocator yields at
least 2 writable bytes. -/
theorem reserve_capacity_spec_witness :
    2 ≤ LinearBuf.capacityIn
      (LinearBuf.reserve true 2 ⟨[some 1, some 2], 2, 1⟩).1 :=
  (reserve_capacity_spec true 2 ⟨[some 1, some 2], 2, 1⟩ (by decide)
    (by decide)).1 (by decide)

/-- C9.  The cursor-ordering invariant `output_idx ≤ input_idx ≤ capacity`
(with the machine-level bound `capacity ≤ isize::MAX` carried by every Rust
allocation) holds for fresh buffers and is preserved by every operation:
`reserve`, `shrink_to_fit`, compaction (`shift_to_start`), `consume`,
`consume_all`, `parse`, the `std::io` `read`/`write` operations, the
mark-written operations — `supply` under its documented unsafe precondition
`count ≤ capacity_in`, and the checked `Buffer::advance`. -/
theorem cursor_invariant_preserved :
    LinearBuf.Inv LinearBuf.new ∧
    (∀ (a : Bool) (n : Nat), (LinearBuf.withCapacity a n).Inv) ∧
    (∀ (a : Bool) (n : Nat) (b : LinearBuf), b.Inv →
      ((LinearBuf.reserve a n b).1).Inv) ∧
    (∀ (a : Bool) (m : Nat) (b : LinearBuf), b.Inv →
      (LinearBuf.shrinkToFit a m b).Inv) ∧
    (∀ b : LinearBuf, b.Inv → ((LinearBuf.shiftToStart b).1).Inv) ∧
    (∀ (c : Nat) (b b' : LinearBuf), b.Inv →
      LinearBuf.consume c b = some b' → b'.Inv) ∧
    (∀ b : LinearBuf, b.Inv → (LinearBuf.consumeAll b).Inv) ∧
    (∀ (α ε : Type) (f : List Nat → Except ε (α × Nat)) (b : LinearBuf)
      (r : Except ε α) (b' : LinearBuf), b.Inv →
      LinearBuf.parse b f = some (r, b') → b'.Inv) ∧
    (∀ (nn : Nat) (b : LinearBuf) (w : List Nat) (b' : LinearBuf), b.Inv →
      LinearBuf.read nn b = some (w, b') → b'.Inv) ∧
    (∀ (a : Bool) (src : List Nat) (b : LinearBuf) (k : Nat)
      (b' : LinearBuf), b.Inv →
      LinearBuf.write a src b = some (k, b') → b'.Inv) ∧
    (∀ (c : Nat) (b : LinearBuf), b.Inv → c ≤ b.capacityIn →
      (LinearBuf.supplyUnchecked c b).Inv) ∧
    (∀ (c : Nat) (b b' : Buffer), b.Inv →
      Buffer.advance c b = some b' → b'.Inv) := by
  refine ⟨?_, ?_, ?_, ?_, ?_, ?_, ?_, ?_, ?_, ?_, ?_, ?_⟩
  · exact ⟨Nat.le_refl 0, Nat.le_refl 0, Nat.zero_le _⟩
  · intro a n
    unfold LinearBuf.withCapacity
    exact LinearBuf.realloc_inv a n LinearBuf.new
      ⟨Nat.le_refl 0, Nat.le_refl 0, Nat.zero_le _⟩ (Nat.zero_le _)
  · exact fun a n b hb => LinearBuf.reserve_inv a n b hb
  · intro a m b hb
    unfold LinearBuf.shrinkToFit
    dsimp only
    have hs := LinearBuf.shiftToStart_inv b hb
    apply LinearBuf.realloc_inv _ _ _ hs
    have i1 := hs.2.1
    have i2 := hs.2.2
    omega
  · exact fun b hb => LinearBuf.shiftToStart_inv b hb
  · exact fun c b b' hb h => LinearBuf.consume_inv c b b' hb h
  · intro b hb
    exact ⟨Nat.le_refl 0, Nat.zero_le _, hb.2.2⟩
  · intro α ε f b r b' hb h
    unfold LinearBuf.parse at h
    split at h
    · split at h
      · cases h
        exact hb
      · dsimp only at h
        split at h
        · cases h
          exact ⟨Nat.le_refl 0, Nat.zero_le _, hb.2.2⟩
        · split at h
          · cases h
          · cases h
            rename_i hne hnlt
            refine ⟨?_, hb.2.1, hb.2.2⟩
            show b.output_idx + _ ≤ b.input_idx
            omega
    · cases h
  · intro nn b w b' hb h
    unfold LinearBuf.read at h
    split at h
    · cases h
    · split at h
      · cases h
      · rename_i heq
        cases h
        exact LinearBuf.consume_inv _ _ _ hb heq
  · intro a src b k b' hb h
    unfold LinearBuf.write at h
    dsimp only at h
    obtain ⟨i1, i2, i3⟩ := LinearBuf.reserve_inv a src.length b hb
    split at h
    · cases h
    · rename_i written rest heq
      cases h
      obtain ⟨hle, hp⟩ := writeFrom_some_iff.mp heq
      obtain ⟨hw, hr⟩ := Prod.mk.injEq .. ▸ hp
      have hwlen : written.length =
          (LinearBuf.reserve a src.length b).1.bytes.length -
            (LinearBuf.reserve a src.length b).1.input_idx := by
        rw [hw]
        simp only [List.length_take, List.length_drop] at hle ⊢
        omega
      refine ⟨?_, ?_, ?_⟩ <;> dsimp only
      · omega
      · rw [hr]
        simp only [List.length_append, List.length_take, List.length_map,
          List.length_drop]
        omega
      · rw [hr]
        simp only [List.length_append, List.length_take, List.length_map,
          List.length_drop]
        omega
  · intro c b hb h
    obtain ⟨h1, h2, h3⟩ := hb
    unfold LinearBuf.capacityIn at h
    refine ⟨?_, ?_, h3⟩
    · show b.output_idx ≤ b.input_idx + c
      omega
    · show b.input_idx + c ≤ b.bytes.length
      omega
  · intro c b b' hb h
    obtain ⟨h1, h2, h3⟩ := hb
    unfold Buffer.advance at h
    split at h
    · rename_i hc
      cases h
      refine ⟨?_, ?_, h3⟩
      · show b.output_idx ≤ b.input_idx + c
        omega
      · show b.input_idx + c ≤ b.bytes.length
        omega
    · cases h

/-- Witness for `cursor_invariant_preserved`, through the `consume` and
`Buffer.advance` components at concrete buffers. -/
theorem cursor_invariant_preserved_witness :
    LinearBuf.Inv ⟨[some 7], 0, 0⟩ ∧ Buffer.Inv ⟨[0, 0], 2, 0⟩ := by
  constructor
  · exact cursor_invariant_preserved.2.2.2.2.2.1 1 ⟨[some 7], 1, 0⟩
      ⟨[some 7], 0, 0⟩ (by decide) rfl
  · exact cursor_invariant_preserved.2.2.2.2.2.2.2.2.2.2.2 2 ⟨[0, 0], 0, 0⟩
      ⟨[0, 0], 2, 0⟩ (by decide) rfl

end Tincan
